import Mathlib

/-!
Verification development for the study-log typed-column record engine
(`src/app/groups.py`).  The Python source is shallowly embedded: cell
values are `String`s, tables are lists of string rows, fallible
operations return `Except Err`, and the CPython string/int primitives
the code relies on (`int()`, `str.split(":")`, `str.strip()`,
`str.lower()`, f-string `{x:02d}` padding) are modelled character by
character below.
-/

set_option maxHeartbeats 1000000
set_option linter.unusedVariables false

namespace StudyLog

/-- Errors raised by the engine.  Python distinguishes `ValueError`
(validation) from `RuntimeError` (configuration); each constructor
carries exactly the data the corresponding message interpolates. -/
inductive Err where
  /-- `validate_integer`: "Value must be an integer." -/
  | mustBeInteger
  /-- `validate_boolean`: enumerated-choices message. -/
  | booleanChoices
  /-- `validate_int_range`: "must be an integer between 1 and 10." -/
  | intRangeNotInteger
  /-- `validate_int_range`: "must be between 1 and 10." -/
  | intRangeOutOfRange
  /-- `parse_duration_to_seconds`: wrong number of `:`-separated fields. -/
  | durationFormat (raw : String)
  /-- `parse_duration_to_seconds`: component out of range. -/
  | durationComponents (raw : String)
  /-- `parse_duration_to_seconds`: `int()` failed on a field. -/
  | durationIntField (raw : String)
  /-- `format_seconds_as_duration`: "Duration cannot be negative." -/
  | negativeDuration
  /-- `find_item_location`: item in no table. -/
  | notFound (item : String)
  /-- `find_item_location`: item in several tables; carries each
  matching table name with its column index. -/
  | ambiguous (item : String) (found : List (String × Nat))
  /-- `find_item_location`: a matching table has no `Log_Date` column. -/
  | noLogDate (groupName : String)
  /-- `log_item`: unsupported type tag. -/
  | unsupportedType (item groupName tag : String)
deriving DecidableEq

/-! ### Python string primitives -/

/-- ASCII whitespace stripped by `str.strip()` (the inputs of interest
are ASCII; Python also strips further Unicode whitespace). -/
def isPySpace (c : Char) : Bool :=
  (c.toNat == 32) || (c.toNat == 9) || (c.toNat == 10) || (c.toNat == 13) ||
    (c.toNat == 11) || (c.toNat == 12)

/-- `str.strip()` on a character list: drop whitespace from both ends. -/
def pyTrimWs (cs : List Char) : List Char :=
  ((cs.dropWhile isPySpace).reverse.dropWhile isPySpace).reverse

/-- `str.strip()`. -/
def pyStrip (s : String) : String :=
  ⟨pyTrimWs s.toList⟩

/-- `str.lower()` (ASCII case mapping; the accepted token sets are ASCII). -/
def pyLower (s : String) : List Char :=
  s.toList.map Char.toLower

/-- One step of decimal accumulation, as `int()` does digit by digit. -/
def digitStep (a : Nat) (c : Char) : Nat :=
  10 * a + (c.toNat - 48)

/-- `int()` on a trimmed, sign-free character list: at least one
character and all decimal digits (ASCII digits; Python also accepts
Unicode decimal digits and `_` separators, which no value here uses). -/
def parseNatDigits (cs : List Char) : Option Nat :=
  if cs ≠ [] ∧ cs.all Char.isDigit then some (cs.foldl digitStep 0) else none

/-- Python `int(str)`: strip whitespace, optional sign, decimal digits
(an empty digit part fails, so headD's `' '` placeholder is harmless). -/
def pyIntParse (cs : List Char) : Option Int :=
  let t := pyTrimWs cs
  if t.headD ' ' = '-' then (parseNatDigits t.tail).map (fun n => -(n : Int))
  else if t.headD ' ' = '+' then (parseNatDigits t.tail).map (fun n => (n : Int))
  else (parseNatDigits t).map (fun n => (n : Int))

/-- `str.split(sep)` for a single-character separator, keeping empty
fields (`"".split(":") = [""]`, `"a:".split(":") = ["a", ""]`). -/
def splitOnChar (sep : Char) : List Char → List (List Char)
  | [] => [[]]
  | c :: rest =>
    if c = sep then [] :: splitOnChar sep rest
    else
      match splitOnChar sep rest with
      | [] => [[c]]
      | a :: as => (c :: a) :: as

/-- Decimal digit character. -/
def digitChar : Nat → Char
  | 0 => '0' | 1 => '1' | 2 => '2' | 3 => '3' | 4 => '4'
  | 5 => '5' | 6 => '6' | 7 => '7' | 8 => '8' | _ => '9'

/-- Decimal digits of `n`, most significant first, with explicit fuel so
that the definition is structural (the fuel `n` itself always suffices). -/
def natDigitsAux : Nat → Nat → List Char
  | 0, _ => []
  | fuel + 1, n =>
    if n = 0 then [] else natDigitsAux fuel (n / 10) ++ [digitChar (n % 10)]

/-- Decimal representation of `n`, as Python `str`/`format` renders it. -/
def natDigits (n : Nat) : List Char :=
  if n = 0 then ['0'] else natDigitsAux n n

/-- f-string `{x:02d}`: pad the decimal form on the left with `'0'` to
width 2. -/
def pad2 (x : Nat) : List Char :=
  if (natDigits x).length < 2 then '0' :: natDigits x else natDigits x

/-- Python `str()` of an int. -/
def intToDecimalString (n : Int) : String :=
  ⟨if n < 0 then '-' :: natDigits n.natAbs else natDigits n.toNat⟩

/-! ### Type validators (`groups.py` lines 55-166) -/

/-- `validate_integer`: `int(value_str)`, `ValueError` on failure. -/
def validate_integer (value_str : String) : Except Err Int :=
  match pyIntParse value_str.toList with
  | some n => .ok n
  | none => .error .mustBeInteger

/-- `is_na_input`: trimmed, lowercased input is `"na"` or `"n/a"`. -/
def is_na_input (value_str : String) : Bool :=
  let s := (pyStrip value_str).toList.map Char.toLower
  s = "na".toList ∨ s = "n/a".toList

/-- `validate_boolean`: case-insensitive truthy/falsy token sets,
normalised to `"TRUE"`/`"FALSE"`. -/
def validate_boolean (value_str : String) : Except Err String :=
  let s := (pyStrip value_str).toList.map Char.toLower
  if s ∈ ["t".toList, "true".toList, "y".toList, "yes".toList, "1".toList] then
    .ok "TRUE"
  else if s ∈ ["f".toList, "false".toList, "n".toList, "no".toList, "0".toList] then
    .ok "FALSE"
  else .error .booleanChoices

/-- `validate_int_range`: integer between 1 and 10 inclusive. -/
def validate_int_range (value_str : String) : Except Err Int :=
  match pyIntParse value_str.toList with
  | some v => if 1 ≤ v ∧ v ≤ 10 then .ok v else .error .intRangeOutOfRange
  | none => .error .intRangeNotInteger

/-- Final range check of `parse_duration_to_seconds`. -/
def durationCheck (hh mm ss : Int) (raw : String) : Except Err Int :=
  if mm < 0 ∨ 60 ≤ mm ∨ ss < 0 ∨ 60 ≤ ss ∨ hh < 0 then
    .error (.durationComponents raw)
  else .ok (hh * 3600 + mm * 60 + ss)

/-- `parse_duration_to_seconds`: `"mm:ss"` or `"hh:mm:ss"` to total
seconds.  An `int()` failure on a field propagates as a `ValueError`,
exactly like the explicit raises. -/
def parse_duration_to_seconds (value_str : String) : Except Err Int :=
  match splitOnChar ':' value_str.toList with
  | [mmCs, ssCs] =>
    match pyIntParse mmCs, pyIntParse ssCs with
    | some mm, some ss => durationCheck 0 mm ss value_str
    | _, _ => .error (.durationIntField value_str)
  | [hhCs, mmCs, ssCs] =>
    match pyIntParse hhCs, pyIntParse mmCs, pyIntParse ssCs with
    | some hh, some mm, some ss => durationCheck hh mm ss value_str
    | _, _, _ => .error (.durationIntField value_str)
  | _ => .error (.durationFormat value_str)

/-- `format_seconds_as_duration`: `hh:mm:ss` with each component
zero-padded to two digits; negative totals are a `ValueError`. -/
def format_seconds_as_duration (total_seconds : Int) : Except Err String :=
  if total_seconds < 0 then .error .negativeDuration
  else
    let t := total_seconds.toNat
    .ok ⟨pad2 (t / 3600) ++ ':' :: pad2 (t % 3600 / 60) ++ ':' :: pad2 (t % 3600 % 60)⟩

/-! ### Data model: groups and the item locator
(`groups.py` lines 169-213) -/

/-- One group CSV as `load_group_csv` returns it: the file stem, the
header row, the type row, and the data rows. -/
structure Group where
  name : String
  headers : List String
  types : List String
  rows : List (List String)
deriving DecidableEq

/-- What `find_item_location` returns for one match: the store index of
the group (standing for its file path), the group itself, the item
column index, and the `Log_Date` column index. -/
structure ItemLoc where
  gIdx : Nat
  group : Group
  itemCol : Nat
  dateCol : Nat
deriving DecidableEq

/-- The scan loop of `find_item_location`: collect a match for every
group whose headers contain the item, failing if such a group lacks a
`Log_Date` column.  `i` is the store index of the first group. -/
def collectMatches (item : String) : List Group → Nat → Except Err (List ItemLoc)
  | [], _ => .ok []
  | g :: gs, i =>
    if item ∈ g.headers then
      match g.headers.findIdx? (· == "Log_Date") with
      | none => .error (.noLogDate g.name)
      | some dc =>
        match collectMatches item gs (i + 1) with
        | .error e => .error e
        | .ok ms => .ok (⟨i, g, g.headers.findIdx (· == item), dc⟩ :: ms)
    else collectMatches item gs (i + 1)

/-- `find_item_location`: zero matches is "not found", several matches
is "ambiguous" (naming every matching table and column index), one
match is returned. -/
def find_item_location (store : List Group) (item : String) : Except Err ItemLoc :=
  match collectMatches item store 0 with
  | .error e => .error e
  | .ok [] => .error (.notFound item)
  | .ok [m] => .ok m
  | .ok ms => .error (.ambiguous item (ms.map fun m => (m.group.name, m.itemCol)))

/-! ### The record engine (`groups.py` lines 216-334) -/

/-- The defensive padding `log_item` and `show_day` apply to a scanned
row: right-pad with empty cells up to the header count. -/
def padRow (h : Nat) (row : List String) : List String :=
  if row.length < h then row ++ List.replicate (h - row.length) "" else row

/-- The date-key cell of a row (`row[log_date_col]`; rows are indexed
only after padding, so the `""` default is never consulted in calls
reached from `log_item`). -/
def rowKey (dateCol : Nat) (row : List String) : String :=
  row.getD dateCol ""

/-- The fresh row synthesized for an unseen date:
`[""] * len(headers)` with the date key filled in. -/
def newRow (h dateCol : Nat) (logDate : String) : List String :=
  (List.replicate h "").set dateCol logDate

/-- Step 4 of `log_item`: walk the rows, padding each scanned row, and
stop at the first whose date-key cell equals `logDate`; if none
matches, append a fresh row.  Returns the updated row list and the
index of the target row.  Rows after a match are left untouched
(the Python loop breaks). -/
def findOrCreateRow (h dateCol : Nat) (logDate : String) :
    List (List String) → List (List String) × Nat
  | [] => ([newRow h dateCol logDate], 0)
  | r :: rs =>
    let r' := padRow h r
    if rowKey dateCol r' = logDate then (r' :: rs, 0)
    else
      let p := findOrCreateRow h dateCol logDate rs
      (r' :: p.1, p.2 + 1)

/-- `previous = target_row[item_col] or "N/A"`. -/
def prevOr (cell : String) : String :=
  if cell = "" then "N/A" else cell

/-- Lines 290-298 of `groups.py`: the seconds already in a duration
cell — the stripped cell if non-empty and not `"N/A"`, a malformed
existing value counting as 0 rather than failing. -/
def existingSecondsOf (cell : String) : Int :=
  let existingStr : String := if cell = "" then "" else pyStrip cell
  if existingStr ≠ "" ∧ existingStr ≠ "N/A" then
    match parse_duration_to_seconds existingStr with
    | .ok n => n
    | .error _ => 0
  else 0

/-- Steps 5-6 of `log_item`: given the declared type tag and the
existing cell content, compute the value to store and the previous
value to report.  The N/A sentinel is checked before type dispatch. -/
def computeValue (itemType valueStr cell itemName groupName : String) :
    Except Err (String × String) :=
  if is_na_input valueStr then .ok ("N/A", prevOr cell)
  else if itemType = "integer" then
    match validate_integer valueStr with
    | .error e => .error e
    | .ok n => .ok (intToDecimalString n, prevOr cell)
  else if itemType = "duration" then
    match parse_duration_to_seconds valueStr with
    | .error e => .error e
    | .ok added =>
      let existingSeconds := existingSecondsOf cell
      match format_seconds_as_duration existingSeconds with
      | .error e => .error e
      | .ok previous =>
        match format_seconds_as_duration (existingSeconds + added) with
        | .error e => .error e
        | .ok value => .ok (value, previous)
  else if itemType = "boolean" then
    match validate_boolean valueStr with
    | .error e => .error e
    | .ok value => .ok (value, prevOr cell)
  else if itemType = "int_range" then
    match validate_int_range valueStr with
    | .error e => .error e
    | .ok n => .ok (intToDecimalString n, prevOr cell)
  else .error (.unsupportedType itemName groupName itemType)

/-- Steps 4-6 of `log_item` on one table: find or create the dated
row, dispatch on the type, and write the computed value into the
target cell.  Returns the new rows, the reported previous value, and
the stored value. -/
def log_item_core (headers : List String) (itemType : String)
    (itemCol dateCol : Nat) (rows : List (List String))
    (valueStr logDate itemName groupName : String) :
    Except Err (List (List String) × String × String) :=
  let fr := findOrCreateRow headers.length dateCol logDate rows
  let row := fr.1.getD fr.2 []
  let cell := row.getD itemCol ""
  match computeValue itemType valueStr cell itemName groupName with
  | .error e => .error e
  | .ok (value, previous) =>
    .ok (fr.1.set fr.2 (row.set itemCol value), previous, value)

/-- `log_item` over the whole store (the list of loaded group CSVs, in
sorted file order; `log_date` is the already-resolved date string).
On success the owning group's table is saved back with its new rows;
on error nothing is saved. -/
def log_item (store : List Group) (itemName valueStr logDate : String) :
    Except Err (List Group) :=
  match find_item_location store itemName with
  | .error e => .error e
  | .ok m =>
    let itemType := m.group.types.getD m.itemCol ""
    match log_item_core m.group.headers itemType m.itemCol m.dateCol
        m.group.rows valueStr logDate itemName m.group.name with
    | .error e => .error e
    | .ok (rows', _, _) =>
      .ok (store.set m.gIdx { m.group with rows := rows' })

/-- The persistence effect of one `log_item` call: `save_group_csv` is
invoked only at step 7, after validation, so a raised error leaves the
stored tables untouched and the caller sees the error. -/
def log_item_run (store : List Group) (itemName valueStr logDate : String) :
    List Group × Except Err Unit :=
  match log_item store itemName valueStr logDate with
  | .ok store' => (store', .ok ())
  | .error e => (store, .error e)

/-- The `ValueError`s of the four validators: the errors the spec calls
validation failures. -/
def IsValidationErr : Err → Bool
  | .mustBeInteger => true
  | .booleanChoices => true
  | .intRangeNotInteger => true
  | .intRangeOutOfRange => true
  | .durationFormat _ => true
  | .durationComponents _ => true
  | .durationIntField _ => true
  | _ => false

/-! ### The day viewer (`groups.py` lines 337-399) -/

/-- The row-finding loop of `show_day`: first row (padded) whose
date-key cell equals the date. -/
def findDayRow (h dateCol : Nat) (logDate : String) :
    List (List String) → Option (List String)
  | [] => none
  | r :: rs =>
    let r' := padRow h r
    if rowKey dateCol r' = logDate then some r' else findDayRow h dateCol logDate rs

/-- One group's contribution to the day view: `none` when the group has
no `Log_Date` column, no row for the date, or no non-empty cell in
that row; otherwise the group name with its non-empty
`(header, cell)` pairs. -/
def dayViewGroup (logDate : String) (g : Group) :
    Option (String × List (String × String)) :=
  match g.headers.findIdx? (· == "Log_Date") with
  | none => none
  | some dc =>
    match findDayRow g.headers.length dc logDate g.rows with
    | none => none
    | some row =>
      let nonEmpty := (g.headers.zip row).filter (fun p => p.2 ≠ "")
      match nonEmpty with
      | [] => none
      | _ => some (g.name, nonEmpty)

/-- What `show_day` renders: either the "no data" message or the
per-group listings. -/
inductive DayView where
  | noData (logDate : String)
  | data (groups : List (String × List (String × String)))
deriving DecidableEq

/-- `show_day` over the whole store. -/
def show_day (store : List Group) (logDate : String) : DayView :=
  match store.filterMap (dayViewGroup logDate) with
  | [] => .noData logDate
  | gs => .data gs

/-- The exact string `format_seconds_as_duration` produces for a
non-negative total. -/
def durationString (t : Nat) : String :=
  ⟨pad2 (t / 3600) ++ ':' :: pad2 (t % 3600 / 60) ++ ':' :: pad2 (t % 3600 % 60)⟩

/-- The matches `find_item_location` collects, written as a total
function: one entry per group whose headers contain the item. -/
def itemMatchesAux (item : String) : List Group → Nat → List ItemLoc
  | [], _ => []
  | g :: gs, i =>
    if item ∈ g.headers then
      ⟨i, g, g.headers.findIdx (· == item), g.headers.findIdx (· == "Log_Date")⟩ ::
        itemMatchesAux item gs (i + 1)
    else itemMatchesAux item gs (i + 1)

/-- The cell stored for a date: first row carrying the date key,
projected at the item column. -/
def cellAtDate (dateCol itemCol : Nat) (d : String)
    (rows : List (List String)) : Option String :=
  (rows.find? (fun r => rowKey dateCol r == d)).map (fun r => r.getD itemCol "")

/-! ### Concrete stores used by the claim witnesses -/

/-- The spec's scenario table: `Study` with `Log_Date`,
`Minutes(integer)`, `Focus_Time(duration)` and no data rows yet. -/
def demoStore : List Group :=
  [⟨"study", ["Log_Date", "Minutes", "Focus_Time"],
    ["date", "integer", "duration"], []⟩]

/-- Two tables that both declare an item `X`. -/
def dupStore : List Group :=
  [⟨"alpha", ["Log_Date", "X"], ["date", "integer"], []⟩,
   ⟨"beta", ["Log_Date", "X"], ["date", "integer"], []⟩]

/-- A table whose `Log_Date` column is itself the logged item. -/
def keyStore : List Group :=
  [⟨"g", ["Log_Date"], ["integer"], [["5"]]⟩]

/-- A table whose second data row is shorter than the headers and sits
after the row for the logged date. -/
def shortRowStore : List Group :=
  [⟨"g", ["Log_Date", "X"], ["date", "integer"],
    [["2026-02-01", ""], ["x"]]⟩]

/-! ### List helper lemmas -/

theorem getD_append_lt {α : Type} (l₁ l₂ : List α) (i : Nat) (d : α)
    (h : i < l₁.length) : (l₁ ++ l₂).getD i d = l₁.getD i d := by
  induction l₁ generalizing i with
  | nil => simp at h
  | cons a l ih =>
    cases i with
    | zero => simp
    | succ j =>
      simp only [List.cons_append, List.getD_cons_succ]
      exact ih j (by simpa using h)

theorem getD_append_ge {α : Type} (l₁ l₂ : List α) (i : Nat) (d : α)
    (h : l₁.length ≤ i) : (l₁ ++ l₂).getD i d = l₂.getD (i - l₁.length) d := by
  induction l₁ generalizing i with
  | nil => simp
  | cons a l ih =>
    cases i with
    | zero => simp at h
    | succ j =>
      simp only [List.cons_append, List.getD_cons_succ, List.length_cons,
        Nat.succ_sub_succ]
      exact ih j (by simpa using h)

theorem getD_append_len {α : Type} (l₁ l₂ : List α) (x : α) (d : α) :
    (l₁ ++ x :: l₂).getD l₁.length d = x := by
  rw [getD_append_ge _ _ _ _ (Nat.le_refl _)]
  simp

theorem getD_set_self {α : Type} (l : List α) (i : Nat) (a d : α)
    (h : i < l.length) : (l.set i a).getD i d = a := by
  induction l generalizing i with
  | nil => simp at h
  | cons b l ih =>
    cases i with
    | zero => simp
    | succ j => simpa using ih j (by simpa using h)

theorem getD_set_ne {α : Type} (l : List α) (i j : Nat) (a d : α)
    (h : j ≠ i) : (l.set i a).getD j d = l.getD j d := by
  induction l generalizing i j with
  | nil => simp
  | cons b l ih =>
    cases i with
    | zero =>
      cases j with
      | zero => exact absurd rfl h
      | succ k => simp
    | succ i' =>
      cases j with
      | zero => simp
      | succ k => simpa using ih i' k (by omega)

theorem getD_replicate {α : Type} (n i : Nat) (a d : α) :
    (List.replicate n a).getD i d = if i < n then a else d := by
  induction n generalizing i with
  | zero => simp
  | succ m ih =>
    cases i with
    | zero => simp
    | succ j =>
      simp only [List.replicate_succ, List.getD_cons_succ, ih]
      by_cases h : j < m <;> simp [h, Nat.succ_lt_succ_iff]

theorem set_append_len {α : Type} (l₁ l₂ : List α) (x y : α) :
    (l₁ ++ x :: l₂).set l₁.length y = l₁ ++ y :: l₂ := by
  induction l₁ with
  | nil => simp
  | cons a l ih => simp [ih]

theorem dropWhile_of_all_false {α : Type} (p : α → Bool) (l : List α)
    (h : ∀ x ∈ l, p x = false) : l.dropWhile p = l := by
  cases l with
  | nil => rfl
  | cons a l => simp [List.dropWhile_cons, h a (by simp)]

theorem find?_append_of_all_false {α : Type} (p : α → Bool) (l₁ l₂ : List α)
    (h : ∀ x ∈ l₁, p x = false) :
    (l₁ ++ l₂).find? p = l₂.find? p := by
  induction l₁ with
  | nil => rfl
  | cons a l ih =>
    simp only [List.cons_append, List.find?_cons, h a (by simp)]
    exact ih fun x hx => h x (by simp [hx])

theorem findIdx?_go_of_all_false {α : Type} (p : α → Bool) (l : List α)
    (i : Nat) (h : ∀ x ∈ l, p x = false) : l.findIdx? p i = none := by
  induction l generalizing i with
  | nil => rfl
  | cons a l ih =>
    rw [List.findIdx?_cons, h a (by simp)]
    simp only [Bool.false_eq_true, if_false]
    exact ih (i + 1) fun x hx => h x (by simp [hx])

theorem findIdx?_of_all_false {α : Type} (p : α → Bool) (l : List α)
    (h : ∀ x ∈ l, p x = false) : l.findIdx? p = none :=
  findIdx?_go_of_all_false p l 0 h

theorem findIdx?_go_of_mem {α : Type} (p : α → Bool) (l : List α) (i : Nat)
    (h : ∃ x ∈ l, p x = true) : l.findIdx? p i = some (i + l.findIdx p) := by
  induction l generalizing i with
  | nil => simp at h
  | cons a l ih =>
    rw [List.findIdx?_cons, List.findIdx_cons]
    cases hpa : p a with
    | true => simp
    | false =>
      have hm : ∃ x ∈ l, p x = true := by
        obtain ⟨x, hx, hpx⟩ := h
        rcases List.mem_cons.mp hx with rfl | hx'
        · rw [hpa] at hpx; cases hpx
        · exact ⟨x, hx', hpx⟩
      simp only [Bool.false_eq_true, if_false, cond_false, ih (i + 1) hm]
      congr 1
      omega

theorem findIdx?_of_mem {α : Type} (p : α → Bool) (l : List α)
    (h : ∃ x ∈ l, p x = true) : l.findIdx? p = some (l.findIdx p) := by
  have := findIdx?_go_of_mem p l 0 h
  simpa using this

/-! ### Decimal digit lemmas -/

theorem digitChar_isDigit (d : Nat) : (digitChar d).isDigit = true := by
  unfold digitChar
  split <;> decide

theorem digitChar_toNat (d : Nat) (h : d ≤ 9) : (digitChar d).toNat = 48 + d := by
  interval_cases d <;> decide

theorem natDigitsAux_isDigit (fuel n : Nat) (h : n ≤ fuel) :
    ∀ c ∈ natDigitsAux fuel n, c.isDigit = true := by
  induction fuel generalizing n with
  | zero => simp [natDigitsAux]
  | succ fuel ih =>
    intro c hc
    rw [natDigitsAux] at hc
    by_cases hn : n = 0
    · simp [hn] at hc
    · rw [if_neg hn] at hc
      rcases List.mem_append.mp hc with hc' | hc'
      · exact ih (n / 10) (by omega) c hc'
      · simp only [List.mem_singleton] at hc'
        subst hc'
        exact digitChar_isDigit _

theorem natDigitsAux_foldl (fuel n : Nat) (h : n ≤ fuel) (a : Nat) :
    (natDigitsAux fuel n).foldl digitStep a =
      a * 10 ^ (natDigitsAux fuel n).length + n := by
  induction fuel generalizing n a with
  | zero =>
    have : n = 0 := by omega
    simp [natDigitsAux, this]
  | succ fuel ih =>
    rw [natDigitsAux]
    by_cases hn : n = 0
    · simp [hn]
    · rw [if_neg hn]
      rw [List.foldl_append, List.length_append]
      rw [ih (n / 10) (by omega) a]
      simp only [List.foldl_cons, List.foldl_nil, List.length_singleton,
        digitStep, digitChar_toNat (n % 10) (by omega)]
      rw [pow_succ, ← mul_assoc]
      generalize a * 10 ^ (natDigitsAux fuel (n / 10)).length = t
      omega

theorem natDigitsAux_ne_nil (fuel n : Nat) (h1 : 1 ≤ n) (h2 : n ≤ fuel) :
    natDigitsAux fuel n ≠ [] := by
  cases fuel with
  | zero => omega
  | succ fuel =>
    rw [natDigitsAux, if_neg (by omega)]
    simp

theorem natDigits_isDigit (n : Nat) : ∀ c ∈ natDigits n, c.isDigit = true := by
  unfold natDigits
  by_cases hn : n = 0
  · simp [hn]
  · rw [if_neg hn]
    exact natDigitsAux_isDigit n n (Nat.le_refl n)

theorem natDigits_foldl (n : Nat) : (natDigits n).foldl digitStep 0 = n := by
  unfold natDigits
  by_cases hn : n = 0
  · simp [hn, digitStep]
  · rw [if_neg hn, natDigitsAux_foldl n n (Nat.le_refl n) 0]
    simp

theorem natDigits_ne_nil (n : Nat) : natDigits n ≠ [] := by
  unfold natDigits
  by_cases hn : n = 0
  · simp [hn]
  · rw [if_neg hn]
    exact natDigitsAux_ne_nil n n (by omega) (Nat.le_refl n)

theorem pad2_isDigit (x : Nat) : ∀ c ∈ pad2 x, c.isDigit = true := by
  unfold pad2
  intro c hc
  split at hc
  · rcases List.mem_cons.mp hc with rfl | hc'
    · decide
    · exact natDigits_isDigit x c hc'
  · exact natDigits_isDigit x c hc

theorem pad2_ne_nil (x : Nat) : pad2 x ≠ [] := by
  unfold pad2
  split
  · simp
  · exact natDigits_ne_nil x

theorem pad2_foldl (x : Nat) : (pad2 x).foldl digitStep 0 = x := by
  unfold pad2
  split
  · simp only [List.foldl_cons]
    have : digitStep 0 '0' = 0 := by decide
    rw [this, natDigits_foldl]
  · exact natDigits_foldl x

/-! ### `int()` on digit strings -/

theorem isDigit_not_space (c : Char) (h : c.isDigit = true) :
    isPySpace c = false := by
  simp only [Char.isDigit, decide_eq_true_eq, Bool.and_eq_true] at h
  simp only [isPySpace, Bool.or_eq_false_iff, beq_eq_false_iff_ne, ne_eq]
  have h48 : 48 ≤ c.toNat := by
    have := h.1
    simpa [Char.le_def, Char.toNat] using this
  omega

theorem isDigit_toNat_range (c : Char) (h : c.isDigit = true) :
    48 ≤ c.toNat ∧ c.toNat ≤ 57 := by
  simp only [Char.isDigit, decide_eq_true_eq, Bool.and_eq_true] at h
  constructor
  · have := h.1
    simpa [Char.le_def, Char.toNat] using this
  · have := h.2
    simpa [Char.le_def, Char.toNat] using this

theorem pyTrimWs_of_no_space (cs : List Char)
    (h : ∀ c ∈ cs, isPySpace c = false) : pyTrimWs cs = cs := by
  unfold pyTrimWs
  rw [dropWhile_of_all_false _ _ h]
  rw [dropWhile_of_all_false _ _ (fun c hc => h c (List.mem_reverse.mp hc))]
  exact List.reverse_reverse cs

theorem parseNatDigits_of_digits (cs : List Char) (hne : cs ≠ [])
    (hd : ∀ c ∈ cs, c.isDigit = true) :
    parseNatDigits cs = some (cs.foldl digitStep 0) := by
  unfold parseNatDigits
  rw [if_pos]
  exact ⟨hne, List.all_eq_true.mpr (fun c hc => hd c hc)⟩

theorem pyIntParse_of_digits (cs : List Char) (hne : cs ≠ [])
    (hd : ∀ c ∈ cs, c.isDigit = true) :
    pyIntParse cs = some ((cs.foldl digitStep 0 : Nat) : Int) := by
  unfold pyIntParse
  rw [pyTrimWs_of_no_space cs (fun c hc => isDigit_not_space c (hd c hc))]
  cases cs with
  | nil => exact absurd rfl hne
  | cons c rest =>
    have hc : c.isDigit = true := hd c (by simp)
    have hr := isDigit_toNat_range c hc
    have hcm : c ≠ '-' := by
      intro he
      rw [he] at hr
      have h45 : ('-').toNat = 45 := by decide
      rw [h45] at hr
      omega
    have hcp : c ≠ '+' := by
      intro he
      rw [he] at hr
      have h43 : ('+').toNat = 43 := by decide
      rw [h43] at hr
      omega
    simp only [List.headD_cons, if_neg hcm, if_neg hcp,
      parseNatDigits_of_digits (c :: rest) (by simp) hd]
    rfl

theorem pyIntParse_pad2 (x : Nat) : pyIntParse (pad2 x) = some (x : Int) := by
  rw [pyIntParse_of_digits (pad2 x) (pad2_ne_nil x) (pad2_isDigit x), pad2_foldl]

/-! ### Splitting lemmas -/

theorem splitOnChar_ne_nil (sep : Char) (cs : List Char) :
    splitOnChar sep cs ≠ [] := by
  cases cs with
  | nil => simp [splitOnChar]
  | cons c rest =>
    rw [splitOnChar]
    split
    · simp
    · split <;> simp

theorem splitOnChar_of_not_mem (sep : Char) (cs : List Char)
    (h : sep ∉ cs) : splitOnChar sep cs = [cs] := by
  induction cs with
  | nil => rfl
  | cons c rest ih =>
    rw [splitOnChar]
    have hc : ¬c = sep := fun he => h (by simp [he])
    rw [if_neg hc, ih (fun hm => h (by simp [hm]))]

theorem splitOnChar_append (sep : Char) (a b : List Char) (h : sep ∉ a) :
    splitOnChar sep (a ++ sep :: b) = a :: splitOnChar sep b := by
  induction a with
  | nil => simp [splitOnChar]
  | cons c rest ih =>
    have hc : ¬c = sep := fun he => h (by simp [he])
    rw [List.cons_append, splitOnChar, if_neg hc,
      ih (fun hm => h (by simp [hm]))]

/-! ### Duration round-trip lemmas -/

theorem isDigit_ne_colon (c : Char) (h : c.isDigit = true) : c ≠ ':' := by
  intro he
  have := isDigit_toNat_range c h
  rw [he] at this
  have h58 : (':').toNat = 58 := by decide
  rw [h58] at this
  omega

theorem colon_not_mem_pad2 (x : Nat) : ':' ∉ pad2 x := by
  intro hm
  exact isDigit_ne_colon ':' (pad2_isDigit x ':' hm) rfl

theorem durationCheck_ok (hh mm ss : Int) (raw : String) (n : Int)
    (h : durationCheck hh mm ss raw = .ok n) : 0 ≤ n := by
  unfold durationCheck at h
  by_cases hg : mm < 0 ∨ 60 ≤ mm ∨ ss < 0 ∨ 60 ≤ ss ∨ hh < 0
  · rw [if_pos hg] at h
    cases h
  · rw [if_neg hg] at h
    injection h with h'
    push_neg at hg
    omega

theorem parse_nonneg (s : String) (n : Int)
    (h : parse_duration_to_seconds s = .ok n) : 0 ≤ n := by
  unfold parse_duration_to_seconds at h
  split at h
  case _ mmCs ssCs heq =>
    cases hmm : pyIntParse mmCs with
    | none => rw [hmm] at h; simp at h
    | some mm =>
      cases hss : pyIntParse ssCs with
      | none => rw [hmm, hss] at h; simp at h
      | some ss =>
        rw [hmm, hss] at h
        exact durationCheck_ok _ _ _ _ _ h
  case _ hhCs mmCs ssCs heq =>
    cases hhh : pyIntParse hhCs with
    | none => rw [hhh] at h; simp at h
    | some hh =>
      cases hmm : pyIntParse mmCs with
      | none => rw [hhh, hmm] at h; simp at h
      | some mm =>
        cases hss : pyIntParse ssCs with
        | none => rw [hhh, hmm, hss] at h; simp at h
        | some ss =>
          rw [hhh, hmm, hss] at h
          exact durationCheck_ok _ _ _ _ _ h
  case _ => cases h

theorem format_eq_durationString (n : Int) (h : 0 ≤ n) :
    format_seconds_as_duration n = .ok (durationString n.toNat) := by
  unfold format_seconds_as_duration
  rw [if_neg (by omega)]
  rfl

theorem durationString_chars (t : Nat) :
    ∀ c ∈ (durationString t).toList, c.isDigit = true ∨ c = ':' := by
  intro c hc
  have hc' : c ∈ pad2 (t / 3600) ++ ':' :: pad2 (t % 3600 / 60) ++
      ':' :: pad2 (t % 3600 % 60) := hc
  simp only [List.mem_append, List.mem_cons] at hc'
  rcases hc' with (h1 | rfl | h2) | rfl | h3
  · exact Or.inl (pad2_isDigit _ c h1)
  · exact Or.inr rfl
  · exact Or.inl (pad2_isDigit _ c h2)
  · exact Or.inr rfl
  · exact Or.inl (pad2_isDigit _ c h3)

theorem parse_durationString (t : Nat) :
    parse_duration_to_seconds (durationString t) = .ok (t : Int) := by
  unfold parse_duration_to_seconds
  have htl : (durationString t).toList =
      pad2 (t / 3600) ++ ':' :: (pad2 (t % 3600 / 60) ++
        ':' :: pad2 (t % 3600 % 60)) := by
    simp [durationString]
  rw [htl, splitOnChar_append ':' _ _ (colon_not_mem_pad2 _),
    splitOnChar_append ':' _ _ (colon_not_mem_pad2 _),
    splitOnChar_of_not_mem ':' _ (colon_not_mem_pad2 _)]
  simp only [pyIntParse_pad2]
  unfold durationCheck
  rw [if_neg]
  · congr 1
    have h1 : t % 3600 / 60 < 60 := by omega
    have h2 : t % 3600 % 60 < 60 := by omega
    push_cast
    omega
  · push_neg
    refine ⟨by positivity, ?_, by positivity, ?_, by positivity⟩
    · have : t % 3600 / 60 < 60 := by omega
      exact_mod_cast this
    · have : t % 3600 % 60 < 60 := by omega
      exact_mod_cast this

/-- `format` then `parse` restores any non-negative number of seconds. -/
theorem parse_format_roundtrip (n : Int) (h : 0 ≤ n) :
    format_seconds_as_duration n = .ok (durationString n.toNat) ∧
      parse_duration_to_seconds (durationString n.toNat) = .ok n := by
  refine ⟨format_eq_durationString n h, ?_⟩
  rw [parse_durationString]
  congr 1
  omega

theorem durationString_ne_empty (t : Nat) : durationString t ≠ "" := by
  intro he
  have : (durationString t).toList = [] := by rw [he]; rfl
  have h2 : (durationString t).toList =
      pad2 (t / 3600) ++ ':' :: (pad2 (t % 3600 / 60) ++
        ':' :: pad2 (t % 3600 % 60)) := by simp [durationString]
  rw [h2] at this
  rcases List.append_eq_nil.mp this with ⟨_, h4⟩
  cases h4

theorem durationString_ne_na (t : Nat) : durationString t ≠ "N/A" := by
  intro he
  have hm : '/' ∈ (durationString t).toList := by
    rw [he]
    decide
  rcases durationString_chars t '/' hm with hd | hc
  · have := isDigit_toNat_range '/' hd
    have h47 : ('/').toNat = 47 := by decide
    rw [h47] at this
    omega
  · cases hc

theorem pyStrip_durationString (t : Nat) :
    pyStrip (durationString t) = durationString t := by
  unfold pyStrip
  have h : ∀ c ∈ (durationString t).toList, isPySpace c = false := by
    intro c hc
    rcases durationString_chars t c hc with hd | rfl
    · exact isDigit_not_space c hd
    · decide
  rw [pyTrimWs_of_no_space _ h]
  rfl

/-! ### Row-level lemmas -/

theorem padRow_length (h : Nat) (r : List String) :
    (padRow h r).length = max h r.length := by
  unfold padRow
  split <;> rename_i hlt
  · simp only [List.length_append, List.length_replicate]
    omega
  · omega

theorem padRow_getD (h : Nat) (r : List String) (i : Nat) :
    (padRow h r).getD i "" = r.getD i "" := by
  unfold padRow
  split <;> rename_i hlt
  · by_cases hi : i < r.length
    · exact getD_append_lt r _ i "" hi
    · rw [getD_append_ge r _ i "" (by omega), getD_replicate]
      have : r.getD i "" = "" := by
        rw [List.getD_eq_getElem?_getD, List.getElem?_eq_none (by omega)]
        rfl
      rw [this]
      split <;> rfl
  · rfl

theorem rowKey_padRow (h dc : Nat) (r : List String) :
    rowKey dc (padRow h r) = rowKey dc r :=
  padRow_getD h r dc

theorem padRow_of_le (h : Nat) (r : List String) (hle : h ≤ r.length) :
    padRow h r = r := by
  unfold padRow
  rw [if_neg (by omega)]

theorem newRow_length (h dc : Nat) (d : String) :
    (newRow h dc d).length = h := by
  simp [newRow]

theorem newRow_key (h dc : Nat) (d : String) (hdc : dc < h) :
    rowKey dc (newRow h dc d) = d := by
  unfold rowKey newRow
  rw [getD_set_self _ _ _ _ (by simpa using hdc)]

theorem newRow_getD_ne (h dc i : Nat) (d : String) (hne : i ≠ dc) :
    (newRow h dc d).getD i "" = "" := by
  unfold newRow
  rw [getD_set_ne _ _ _ _ _ hne, getD_replicate]
  split <;> rfl

/-- `findOrCreateRow` when no row carries the date: every row is padded
and exactly one fresh row is appended. -/
theorem findOrCreateRow_no_match (h dc : Nat) (d : String)
    (rows : List (List String)) (hno : ∀ r ∈ rows, rowKey dc r ≠ d) :
    findOrCreateRow h dc d rows =
      (rows.map (padRow h) ++ [newRow h dc d], rows.length) := by
  induction rows with
  | nil => rfl
  | cons r rs ih =>
    rw [findOrCreateRow]
    have hr : rowKey dc (padRow h r) ≠ d := by
      rw [rowKey_padRow]
      exact hno r (by simp)
    rw [if_neg hr, ih (fun r' hr' => hno r' (by simp [hr']))]
    simp

/-- `findOrCreateRow` at the first matching row: rows before it are
padded, the match is padded and returned, rows after it are untouched. -/
theorem findOrCreateRow_match (h dc : Nat) (d : String)
    (pre : List (List String)) (r : List String) (post : List (List String))
    (hpre : ∀ r' ∈ pre, rowKey dc r' ≠ d) (hr : rowKey dc r = d) :
    findOrCreateRow h dc d (pre ++ r :: post) =
      (pre.map (padRow h) ++ padRow h r :: post, pre.length) := by
  induction pre with
  | nil =>
    simp only [List.nil_append, List.map_nil, List.length_nil]
    rw [findOrCreateRow]
    rw [if_pos (by rw [rowKey_padRow]; exact hr)]
  | cons q qs ih =>
    rw [List.cons_append, findOrCreateRow]
    have hq : rowKey dc (padRow h q) ≠ d := by
      rw [rowKey_padRow]
      exact hpre q (by simp)
    rw [if_neg hq, ih (fun r' hr' => hpre r' (by simp [hr']))]
    simp

/-- Any row list splits at its first date match when one exists. -/
theorem exists_first_match (dc : Nat) (d : String)
    (rows : List (List String)) (hx : ¬∀ r ∈ rows, rowKey dc r ≠ d) :
    ∃ pre r post, rows = pre ++ r :: post ∧
      (∀ r' ∈ pre, rowKey dc r' ≠ d) ∧ rowKey dc r = d := by
  induction rows with
  | nil => exact absurd (by simp) hx
  | cons q qs ih =>
    by_cases hq : rowKey dc q = d
    · exact ⟨[], q, qs, by simp, by simp, hq⟩
    · have hx' : ¬∀ r ∈ qs, rowKey dc r ≠ d := by
        intro hall
        exact hx (by
          intro r hr
          rcases List.mem_cons.mp hr with rfl | hr'
          · exact hq
          · exact hall r hr')
      obtain ⟨pre, r, post, heq, hpre, hr⟩ := ih hx'
      exact ⟨q :: pre, r, post, by simp [heq], by
        intro r' hr'
        rcases List.mem_cons.mp hr' with rfl | hin
        · exact hq
        · exact hpre r' hin, hr⟩

theorem findOrCreateRow_idx_lt (h dc : Nat) (d : String)
    (rows : List (List String)) :
    (findOrCreateRow h dc d rows).2 < (findOrCreateRow h dc d rows).1.length := by
  by_cases hno : ∀ r ∈ rows, rowKey dc r ≠ d
  · rw [findOrCreateRow_no_match h dc d rows hno]
    simp
  · obtain ⟨pre, r, post, heq, hpre, hr⟩ := exists_first_match dc d rows hno
    rw [heq, findOrCreateRow_match h dc d pre r post hpre hr]
    simp only [List.length_append, List.length_map, List.length_cons]
    omega

/-- When every matching group has a `Log_Date` column, the scan cannot
fail and collects exactly the matches. -/
theorem collectMatches_of_wf (item : String) (gs : List Group) (i : Nat)
    (hwf : ∀ g ∈ gs, item ∈ g.headers → "Log_Date" ∈ g.headers) :
    collectMatches item gs i = .ok (itemMatchesAux item gs i) := by
  induction gs generalizing i with
  | nil => rfl
  | cons g gs ih =>
    rw [collectMatches, itemMatchesAux]
    by_cases hm : item ∈ g.headers
    · rw [if_pos hm, if_pos hm]
      have hld : "Log_Date" ∈ g.headers := hwf g (by simp) hm
      rw [findIdx?_of_mem (· == "Log_Date") g.headers ⟨"Log_Date", hld, by simp⟩]
      rw [ih (i + 1) (fun g' hg' => hwf g' (by simp [hg']))]
    · rw [if_neg hm, if_neg hm]
      exact ih (i + 1) (fun g' hg' => hwf g' (by simp [hg']))

theorem collectMatches_mem (item : String) (gs : List Group) (i : Nat)
    (ms : List ItemLoc) (h : collectMatches item gs i = .ok ms) :
    ∀ m ∈ ms, ∃ j, m.gIdx = i + j ∧ gs.get? j = some m.group := by
  induction gs generalizing i ms with
  | nil =>
    rw [collectMatches] at h
    injection h with h'
    subst h'
    simp
  | cons g gs ih =>
    rw [collectMatches] at h
    by_cases hm : item ∈ g.headers
    · rw [if_pos hm] at h
      cases hidx : g.headers.findIdx? (· == "Log_Date") with
      | none => rw [hidx] at h; cases h
      | some dc =>
        rw [hidx] at h
        cases hcol : collectMatches item gs (i + 1) with
        | error e => rw [hcol] at h; cases h
        | ok ms' =>
          rw [hcol] at h
          injection h with h'
          subst h'
          intro m hm'
          rcases List.mem_cons.mp hm' with rfl | hin
          · exact ⟨0, by simp⟩
          · obtain ⟨j, hj1, hj2⟩ := ih (i + 1) ms' hcol m hin
            exact ⟨j + 1, by omega, by simpa using hj2⟩
    · rw [if_neg hm] at h
      intro m hm'
      obtain ⟨j, hj1, hj2⟩ := ih (i + 1) ms h m hm'
      exact ⟨j + 1, by omega, by simpa using hj2⟩

/-- The location `find_item_location` returns really is the group at
that store index. -/
theorem find_item_location_get? (store : List Group) (item : String)
    (m : ItemLoc) (h : find_item_location store item = .ok m) :
    store.get? m.gIdx = some m.group := by
  unfold find_item_location at h
  cases hcol : collectMatches item store 0 with
  | error e => rw [hcol] at h; cases h
  | ok ms =>
    rw [hcol] at h
    cases ms with
    | nil => cases h
    | cons a tl =>
      cases tl with
      | nil =>
        injection h with h'
        rw [h'] at hcol
        obtain ⟨j, hj1, hj2⟩ := collectMatches_mem item store 0 [m] hcol m (by simp)
        rw [hj1]
        simpa using hj2
      | cons b tl' => cases h

theorem findOrCreateRow_target_len (h dc : Nat) (d : String)
    (rows : List (List String)) :
    h ≤ ((findOrCreateRow h dc d rows).1.getD (findOrCreateRow h dc d rows).2 []).length := by
  by_cases hno : ∀ r ∈ rows, rowKey dc r ≠ d
  · rw [findOrCreateRow_no_match h dc d rows hno]
    dsimp only
    have hlen : (rows.map (padRow h)).length = rows.length := by simp
    rw [← hlen, getD_append_len (rows.map (padRow h)) [] (newRow h dc d) [],
      newRow_length]
  · obtain ⟨pre, r, post, heq, hpre, hr⟩ := exists_first_match dc d rows hno
    rw [heq, findOrCreateRow_match h dc d pre r post hpre hr]
    dsimp only
    have hlen : (pre.map (padRow h)).length = pre.length := by simp
    rw [← hlen, getD_append_len (pre.map (padRow h)) post (padRow h r) [],
      padRow_length]
    omega

theorem padRow_pad (h : Nat) (r : List String) :
    padRow h (padRow h r) = padRow h r := by
  apply padRow_of_le
  rw [padRow_length]
  omega

theorem itemMatchesAux_nil (item : String) (gs : List Group) (i : Nat)
    (h : ∀ g ∈ gs, item ∉ g.headers) : itemMatchesAux item gs i = [] := by
  induction gs generalizing i with
  | nil => rfl
  | cons g gs ih =>
    rw [itemMatchesAux, if_neg (h g (by simp))]
    exact ih (i + 1) (fun g' hg' => h g' (by simp [hg']))

/-- `log_item_core` on a table with no row for the date, written with
the target row resolved. -/
theorem log_item_core_no_match_eq (hdrs : List String) (itemType : String)
    (itemCol dateCol : Nat) (rows : List (List String))
    (valueStr d itemName groupName : String)
    (hno : ∀ r ∈ rows, rowKey dateCol r ≠ d) :
    log_item_core hdrs itemType itemCol dateCol rows valueStr d itemName groupName =
      match computeValue itemType valueStr
          ((newRow hdrs.length dateCol d).getD itemCol "") itemName groupName with
      | .error e => .error e
      | .ok (value, previous) =>
        .ok (rows.map (padRow hdrs.length) ++
              [(newRow hdrs.length dateCol d).set itemCol value],
            previous, value) := by
  unfold log_item_core
  rw [findOrCreateRow_no_match hdrs.length dateCol d rows hno]
  dsimp only
  have hlen : (rows.map (padRow hdrs.length)).length = rows.length := by simp
  rw [← hlen, getD_append_len]
  cases computeValue itemType valueStr
      ((newRow hdrs.length dateCol d).getD itemCol "") itemName groupName with
  | error e => rfl
  | ok vp =>
    dsimp only
    rw [set_append_len]

/-- `log_item_core` when the date's row exists: rows before it are
padded, the target row is padded then updated at the item column, rows
after it are untouched. -/
theorem log_item_core_match_eq (hdrs : List String) (itemType : String)
    (itemCol dateCol : Nat) (pre : List (List String)) (r : List String)
    (post : List (List String)) (valueStr d itemName groupName : String)
    (hpre : ∀ r' ∈ pre, rowKey dateCol r' ≠ d) (hr : rowKey dateCol r = d) :
    log_item_core hdrs itemType itemCol dateCol (pre ++ r :: post)
        valueStr d itemName groupName =
      match computeValue itemType valueStr
          ((padRow hdrs.length r).getD itemCol "") itemName groupName with
      | .error e => .error e
      | .ok (value, previous) =>
        .ok (pre.map (padRow hdrs.length) ++
              (padRow hdrs.length r).set itemCol value :: post,
            previous, value) := by
  unfold log_item_core
  rw [findOrCreateRow_match hdrs.length dateCol d pre r post hpre hr]
  dsimp only
  have hlen : (pre.map (padRow hdrs.length)).length = pre.length := by simp
  rw [← hlen, getD_append_len]
  cases computeValue itemType valueStr
      ((padRow hdrs.length r).getD itemCol "") itemName groupName with
  | error e => rfl
  | ok vp =>
    dsimp only
    rw [set_append_len]

/-- Inverting a successful `log_item_core` call when no row carries the
date: the dispatch succeeded on the fresh row's (empty) cell, and the
result is the padded rows plus the updated fresh row. -/
theorem log_item_core_ok_no_match (hdrs : List String) (itemType : String)
    (itemCol dateCol : Nat) (rows : List (List String))
    (valueStr d itemName groupName : String)
    (rows' : List (List String)) (prev value : String)
    (hno : ∀ r ∈ rows, rowKey dateCol r ≠ d)
    (hok : log_item_core hdrs itemType itemCol dateCol rows valueStr d
      itemName groupName = .ok (rows', prev, value)) :
    computeValue itemType valueStr
        ((newRow hdrs.length dateCol d).getD itemCol "") itemName groupName =
      .ok (value, prev) ∧
    rows' = rows.map (padRow hdrs.length) ++
      [(newRow hdrs.length dateCol d).set itemCol value] := by
  rw [log_item_core_no_match_eq hdrs itemType itemCol dateCol rows valueStr d
    itemName groupName hno] at hok
  cases hcv : computeValue itemType valueStr
      ((newRow hdrs.length dateCol d).getD itemCol "") itemName groupName with
  | error e =>
    rw [hcv] at hok
    cases hok
  | ok vp =>
    obtain ⟨v, p⟩ := vp
    rw [hcv] at hok
    dsimp only at hok
    injection hok with h3
    have hv : v = value := congrArg (fun t => t.2.2) h3
    have hp : p = prev := congrArg (fun t => t.2.1) h3
    have hr : rows' = rows.map (padRow hdrs.length) ++
        [(newRow hdrs.length dateCol d).set itemCol v] :=
      (congrArg Prod.fst h3).symm
    subst hv
    subst hp
    exact ⟨rfl, hr⟩

/-- Inverting a successful `log_item_core` call at an existing dated
row. -/
theorem log_item_core_ok_match (hdrs : List String) (itemType : String)
    (itemCol dateCol : Nat) (pre : List (List String)) (r : List String)
    (post : List (List String)) (valueStr d itemName groupName : String)
    (rows' : List (List String)) (prev value : String)
    (hpre : ∀ r' ∈ pre, rowKey dateCol r' ≠ d) (hr : rowKey dateCol r = d)
    (hok : log_item_core hdrs itemType itemCol dateCol (pre ++ r :: post)
      valueStr d itemName groupName = .ok (rows', prev, value)) :
    computeValue itemType valueStr
        ((padRow hdrs.length r).getD itemCol "") itemName groupName =
      .ok (value, prev) ∧
    rows' = pre.map (padRow hdrs.length) ++
      (padRow hdrs.length r).set itemCol value :: post := by
  rw [log_item_core_match_eq hdrs itemType itemCol dateCol pre r post valueStr
    d itemName groupName hpre hr] at hok
  cases hcv : computeValue itemType valueStr
      ((padRow hdrs.length r).getD itemCol "") itemName groupName with
  | error e =>
    rw [hcv] at hok
    cases hok
  | ok vp =>
    obtain ⟨v, p⟩ := vp
    rw [hcv] at hok
    dsimp only at hok
    injection hok with h3
    have hv : v = value := congrArg (fun t => t.2.2) h3
    have hp : p = prev := congrArg (fun t => t.2.1) h3
    have hq : rows' = pre.map (padRow hdrs.length) ++
        (padRow hdrs.length r).set itemCol v :: post :=
      (congrArg Prod.fst h3).symm
    subst hv
    subst hp
    exact ⟨rfl, hq⟩

theorem filter_eq_nil_of_false {α : Type} (p : α → Bool) (l : List α)
    (h : ∀ x ∈ l, p x = false) : l.filter p = [] := by
  induction l with
  | nil => rfl
  | cons a l ih =>
    rw [List.filter_cons, h a (by simp)]
    exact ih fun x hx => h x (by simp [hx])

theorem map_pad_pad (h : Nat) (rows : List (List String)) :
    (rows.map (padRow h)).map (padRow h) = rows.map (padRow h) := by
  induction rows with
  | nil => rfl
  | cons r rs ih => simp [padRow_pad, ih]

theorem map_rowKey_pad (h dc : Nat) (rows : List (List String)) :
    (rows.map (padRow h)).map (rowKey dc) = rows.map (rowKey dc) := by
  induction rows with
  | nil => rfl
  | cons r rs ih => simp [rowKey_padRow, ih]

/-- Looking up the date in rows whose earlier entries all miss it finds
the appended row. -/
theorem cellAtDate_append_last (dc ic : Nat) (d : String)
    (pre : List (List String)) (q : List String)
    (hpre : ∀ r ∈ pre, rowKey dc r ≠ d) (hq : rowKey dc q = d)
    (hlen : ic < q.length) :
    cellAtDate dc ic d (pre ++ [q]) = some (q.getD ic "") := by
  unfold cellAtDate
  rw [find?_append_of_all_false _ pre [q]
    (fun r hr => beq_eq_false_iff_ne.mpr (hpre r hr))]
  have hqt : (rowKey dc q == d) = true := beq_iff_eq.mpr hq
  simp [List.find?, hqt]

/-! ### `computeValue` branch lemmas -/

theorem computeValue_na (itemType valueStr cell itemName groupName : String)
    (hna : is_na_input valueStr = true) :
    computeValue itemType valueStr cell itemName groupName =
      .ok ("N/A", prevOr cell) := by
  unfold computeValue
  rw [if_pos hna]

theorem computeValue_integer (valueStr cell itemName groupName : String)
    (n : Int) (hna : is_na_input valueStr = false)
    (hv : validate_integer valueStr = .ok n) :
    computeValue "integer" valueStr cell itemName groupName =
      .ok (intToDecimalString n, prevOr cell) := by
  unfold computeValue
  rw [if_neg (by simp [hna]), if_pos rfl, hv]

theorem existingSecondsOf_nonneg (cell : String) :
    0 ≤ existingSecondsOf cell := by
  simp only [existingSecondsOf]
  by_cases h : (if cell = "" then "" else pyStrip cell) ≠ "" ∧
      (if cell = "" then "" else pyStrip cell) ≠ "N/A"
  · rw [if_pos h]
    cases hp : parse_duration_to_seconds (if cell = "" then "" else pyStrip cell) with
    | ok n => exact parse_nonneg _ n hp
    | error e => exact le_refl 0
  · rw [if_neg h]

theorem computeValue_duration (valueStr cell itemName groupName : String)
    (added : Int) (hna : is_na_input valueStr = false)
    (hp : parse_duration_to_seconds valueStr = .ok added) :
    computeValue "duration" valueStr cell itemName groupName =
      .ok (durationString (existingSecondsOf cell + added).toNat,
        durationString (existingSecondsOf cell).toNat) := by
  have hex := existingSecondsOf_nonneg cell
  have hadd := parse_nonneg _ _ hp
  unfold computeValue
  rw [if_neg (by simp [hna]), if_neg (by decide), if_pos rfl, hp]
  dsimp only
  rw [format_eq_durationString _ hex, format_eq_durationString _ (by omega)]

theorem computeValue_boolean (valueStr cell itemName groupName b : String)
    (hna : is_na_input valueStr = false)
    (hv : validate_boolean valueStr = .ok b) :
    computeValue "boolean" valueStr cell itemName groupName =
      .ok (b, prevOr cell) := by
  unfold computeValue
  rw [if_neg (by simp [hna]), if_neg (by decide), if_neg (by decide),
    if_pos rfl, hv]

theorem computeValue_int_range (valueStr cell itemName groupName : String)
    (n : Int) (hna : is_na_input valueStr = false)
    (hv : validate_int_range valueStr = .ok n) :
    computeValue "int_range" valueStr cell itemName groupName =
      .ok (intToDecimalString n, prevOr cell) := by
  unfold computeValue
  rw [if_neg (by simp [hna]), if_neg (by decide), if_neg (by decide),
    if_neg (by decide), if_pos rfl, hv]

theorem existingSecondsOf_empty : existingSecondsOf "" = 0 := by
  simp [existingSecondsOf]

theorem existingSecondsOf_durationString (t : Nat) :
    existingSecondsOf (durationString t) = (t : Int) := by
  have h1 : (if durationString t = "" then "" else pyStrip (durationString t)) =
      durationString t := by
    rw [if_neg (durationString_ne_empty t), pyStrip_durationString]
  simp only [existingSecondsOf, h1]
  rw [if_pos ⟨durationString_ne_empty t, durationString_ne_na t⟩,
    parse_durationString]

/-- A corrupt (unparseable) pre-existing duration cell counts as zero. -/
theorem existingSecondsOf_bad (cell : String) (e : Err)
    (hbad : parse_duration_to_seconds (pyStrip cell) = .error e) :
    existingSecondsOf cell = 0 := by
  by_cases hc : cell = ""
  · simp only [existingSecondsOf, if_pos hc]
    rw [if_neg (by simp)]
  · simp only [existingSecondsOf, if_neg hc]
    by_cases hs : pyStrip cell ≠ "" ∧ pyStrip cell ≠ "N/A"
    · rw [if_pos hs, hbad]
    · rw [if_neg hs]

/-! ### Claims -/

/-- C2: `parse_duration_to_seconds` and `format_seconds_as_duration`
are exact inverses on non-negative seconds, and `format ∘ parse` is a
fixed point of itself on every input (on parse failures both sides
propagate the same error). -/
theorem c2_duration_inverse_roundtrip :
    (∀ n : Nat, ∃ f, format_seconds_as_duration (n : Int) = .ok f ∧
        parse_duration_to_seconds f = .ok (n : Int)) ∧
    ∀ s : String,
      Except.bind (Except.bind (parse_duration_to_seconds s)
          format_seconds_as_duration)
          (fun f => Except.bind (parse_duration_to_seconds f)
            format_seconds_as_duration) =
        Except.bind (parse_duration_to_seconds s) format_seconds_as_duration := by
  constructor
  · intro n
    obtain ⟨h1, h2⟩ := parse_format_roundtrip (n : Int) (by positivity)
    exact ⟨durationString ((n : Int)).toNat, h1, h2⟩
  · intro s
    cases hp : parse_duration_to_seconds s with
    | error e => rfl
    | ok n =>
      have hn := parse_nonneg s n hp
      obtain ⟨h1, h2⟩ := parse_format_roundtrip n hn
      simp only [Except.bind, h1, h2]

/-- C3: when `log_item` fails with a validation error, nothing is
saved: the persisted store after the call is exactly the store before
it (`save_group_csv` runs only at step 7, after validation). -/
theorem c3_validation_error_no_write (store : List Group)
    (itemName valueStr logDate : String) (e : Err)
    (herr : log_item store itemName valueStr logDate = .error e)
    (hval : IsValidationErr e = true) :
    log_item_run store itemName valueStr logDate = (store, .error e) := by
  unfold log_item_run
  rw [herr]

/-- C3 witness: a bad integer leaves the demo store untouched. -/
theorem c3_witness :
    log_item_run demoStore "Minutes" "abc" "2026-02-01" =
      (demoStore, .error .mustBeInteger) :=
  c3_validation_error_no_write demoStore "Minutes" "abc" "2026-02-01"
    .mustBeInteger rfl rfl

/-- C5: the N/A sentinel wins over every declared type tag (including
unsupported ones): the call succeeds, stores the literal `"N/A"` in the
target cell, and reports the prior cell content (or `"N/A"` when that
cell was empty) as previous value. -/
theorem c5_na_overrides_type (hdrs : List String) (itemType : String)
    (itemCol dateCol : Nat) (rows : List (List String))
    (valueStr logDate itemName groupName : String)
    (hna : is_na_input valueStr = true) (hic : itemCol < hdrs.length) :
    log_item_core hdrs itemType itemCol dateCol rows valueStr logDate
        itemName groupName =
      .ok ((findOrCreateRow hdrs.length dateCol logDate rows).1.set
            (findOrCreateRow hdrs.length dateCol logDate rows).2
            (((findOrCreateRow hdrs.length dateCol logDate rows).1.getD
              (findOrCreateRow hdrs.length dateCol logDate rows).2 []).set
              itemCol "N/A"),
          prevOr (((findOrCreateRow hdrs.length dateCol logDate rows).1.getD
            (findOrCreateRow hdrs.length dateCol logDate rows).2 []).getD
            itemCol ""),
          "N/A") ∧
    ∀ rows' prev value,
      log_item_core hdrs itemType itemCol dateCol rows valueStr logDate
          itemName groupName = .ok (rows', prev, value) →
      (rows'.getD (findOrCreateRow hdrs.length dateCol logDate rows).2 []).getD
          itemCol "" = "N/A" := by
  have hcv := computeValue_na itemType valueStr
    (((findOrCreateRow hdrs.length dateCol logDate rows).1.getD
      (findOrCreateRow hdrs.length dateCol logDate rows).2 []).getD itemCol "")
    itemName groupName hna
  have hmain : log_item_core hdrs itemType itemCol dateCol rows valueStr
      logDate itemName groupName =
      .ok ((findOrCreateRow hdrs.length dateCol logDate rows).1.set
            (findOrCreateRow hdrs.length dateCol logDate rows).2
            (((findOrCreateRow hdrs.length dateCol logDate rows).1.getD
              (findOrCreateRow hdrs.length dateCol logDate rows).2 []).set
              itemCol "N/A"),
          prevOr (((findOrCreateRow hdrs.length dateCol logDate rows).1.getD
            (findOrCreateRow hdrs.length dateCol logDate rows).2 []).getD
            itemCol ""),
          "N/A") := by
    simp only [log_item_core]
    rw [hcv]
  refine ⟨hmain, ?_⟩
  intro rows' prev value hok
  rw [hmain] at hok
  injection hok with hok'
  have hr : rows' =
      (findOrCreateRow hdrs.length dateCol logDate rows).1.set
        (findOrCreateRow hdrs.length dateCol logDate rows).2
        (((findOrCreateRow hdrs.length dateCol logDate rows).1.getD
          (findOrCreateRow hdrs.length dateCol logDate rows).2 []).set
          itemCol "N/A") :=
    (congrArg Prod.fst hok').symm
  rw [hr,
    getD_set_self _ _ _ _ (findOrCreateRow_idx_lt hdrs.length dateCol logDate rows),
    getD_set_self _ _ _ _
      (lt_of_lt_of_le hic (findOrCreateRow_target_len hdrs.length dateCol logDate rows))]

/-- C5 witness: `" N/a "` logged into a column of unsupported type
`"weird"` still succeeds and stores `"N/A"`, reporting the prior `"7"`. -/
theorem c5_witness :
    log_item_core ["Log_Date", "X"] "weird" 1 0 [["2026-02-01", "7"]]
        " N/a " "2026-02-01" "X" "g" =
      .ok ([["2026-02-01", "N/A"]], "7", "N/A") := by
  have h := (c5_na_overrides_type ["Log_Date", "X"] "weird" 1 0
    [["2026-02-01", "7"]] " N/a " "2026-02-01" "X" "g"
    (by decide) (by decide)).1
  exact h

/-- C4: `find_item_location` over a store whose matching tables all
carry a `Log_Date` column: zero matches is a not-found error, exactly
one match is returned, several matches is an ambiguity error naming
every matching table with its column index. -/
theorem c4_find_item_location_cases (store : List Group) (item : String)
    (hwf : ∀ g ∈ store, item ∈ g.headers → "Log_Date" ∈ g.headers) :
    ((∀ g ∈ store, item ∉ g.headers) →
      find_item_location store item = .error (.notFound item)) ∧
    (∀ m : ItemLoc, itemMatchesAux item store 0 = [m] →
      find_item_location store item = .ok m) ∧
    (2 ≤ (itemMatchesAux item store 0).length →
      find_item_location store item =
        .error (.ambiguous item
          ((itemMatchesAux item store 0).map fun m => (m.group.name, m.itemCol)))) := by
  have hcol := collectMatches_of_wf item store 0 hwf
  refine ⟨?_, ?_, ?_⟩
  · intro hnone
    unfold find_item_location
    rw [hcol, itemMatchesAux_nil item store 0 hnone]
  · intro m hm
    unfold find_item_location
    rw [hcol, hm]
  · intro h2
    unfold find_item_location
    rw [hcol]
    cases hms : itemMatchesAux item store 0 with
    | nil =>
      rw [hms] at h2
      simp at h2
    | cons a tl =>
      cases tl with
      | nil =>
        rw [hms] at h2
        simp at h2
      | cons b tl2 => rfl

/-- C4 witness: one unique match, one two-table ambiguity (naming both
tables and their column indices), one not-found. -/
theorem c4_witness :
    find_item_location demoStore "Minutes" =
      .ok ⟨0, ⟨"study", ["Log_Date", "Minutes", "Focus_Time"],
        ["date", "integer", "duration"], []⟩, 1, 0⟩ ∧
    find_item_location dupStore "X" =
      .error (.ambiguous "X" [("alpha", 1), ("beta", 1)]) ∧
    find_item_location demoStore "Zed" = .error (.notFound "Zed") := by
  refine ⟨?_, ?_, ?_⟩
  · exact (c4_find_item_location_cases demoStore "Minutes" (by decide)).2.1
      ⟨0, ⟨"study", ["Log_Date", "Minutes", "Focus_Time"],
        ["date", "integer", "duration"], []⟩, 1, 0⟩ (by decide)
  · exact (c4_find_item_location_cases dupStore "X" (by decide)).2.2 (by decide)
  · exact (c4_find_item_location_cases demoStore "Zed" (by decide)).1 (by decide)

/-- C7: logging a valid duration onto an existing cell that is
non-empty, not `"N/A"`, and unparseable does not fail: the old value
counts as 0 seconds, the stored result is the new duration alone, and
the previous value is reported as `"00:00:00"`. -/
theorem c7_corrupt_existing_duration (hdrs : List String)
    (itemCol dateCol : Nat) (rows : List (List String))
    (valueStr logDate itemName groupName cell : String) (n : Int) (e : Err)
    (hcellEq : (((findOrCreateRow hdrs.length dateCol logDate rows).1.getD
      (findOrCreateRow hdrs.length dateCol logDate rows).2 []).getD
      itemCol "") = cell)
    (hadd : parse_duration_to_seconds valueStr = .ok n)
    (hna : is_na_input valueStr = false)
    (hcell : cell ≠ "") (hstrip : pyStrip cell ≠ "N/A")
    (hbad : parse_duration_to_seconds (pyStrip cell) = .error e) :
    log_item_core hdrs "duration" itemCol dateCol rows valueStr logDate
        itemName groupName =
      .ok ((findOrCreateRow hdrs.length dateCol logDate rows).1.set
            (findOrCreateRow hdrs.length dateCol logDate rows).2
            (((findOrCreateRow hdrs.length dateCol logDate rows).1.getD
              (findOrCreateRow hdrs.length dateCol logDate rows).2 []).set
              itemCol (durationString n.toNat)),
          "00:00:00", durationString n.toNat) := by
  have hzero : existingSecondsOf cell = 0 := existingSecondsOf_bad cell e hbad
  have hcv := computeValue_duration valueStr cell itemName groupName n hna hadd
  rw [hzero] at hcv
  have h0 : durationString ((0 : Int)).toNat = "00:00:00" := rfl
  rw [zero_add, h0] at hcv
  simp only [log_item_core]
  rw [hcellEq, hcv]

/-- C7 witness: `"10:00"` logged over the corrupt cell `"bogus"` stores
`"00:10:00"` and reports previous `"00:00:00"`. -/
theorem c7_witness :
    log_item_core ["Log_Date", "Focus_Time"] "duration" 1 0
        [["2026-02-01", "bogus"]] "10:00" "2026-02-01" "Focus_Time" "g" =
      .ok ([["2026-02-01", "00:10:00"]], "00:00:00", "00:10:00") := by
  have h := c7_corrupt_existing_duration ["Log_Date", "Focus_Time"] 1 0
    [["2026-02-01", "bogus"]] "10:00" "2026-02-01" "Focus_Time" "g"
    "bogus" 600 (.durationFormat "bogus") rfl rfl rfl
    (by decide) (by decide) rfl
  exact h

/-- C6: a successful log on a date no existing row carries appends
exactly one new row: length equal to the header count, the date in the
date-key cell, the stored value in the item cell, and every other cell
empty. -/
theorem c6_fresh_date_appends_one_row (hdrs : List String)
    (itemType : String) (itemCol dateCol : Nat) (rows : List (List String))
    (valueStr logDate itemName groupName : String)
    (rows' : List (List String)) (prev value : String)
    (hic : itemCol < hdrs.length) (hdc : dateCol < hdrs.length)
    (hne : itemCol ≠ dateCol)
    (hno : ∀ r ∈ rows, rowKey dateCol r ≠ logDate)
    (hok : log_item_core hdrs itemType itemCol dateCol rows valueStr logDate
      itemName groupName = .ok (rows', prev, value)) :
    rows' = rows.map (padRow hdrs.length) ++
      [(newRow hdrs.length dateCol logDate).set itemCol value] ∧
    ((newRow hdrs.length dateCol logDate).set itemCol value).length =
      hdrs.length ∧
    ((newRow hdrs.length dateCol logDate).set itemCol value).getD dateCol "" =
      logDate ∧
    ((newRow hdrs.length dateCol logDate).set itemCol value).getD itemCol "" =
      value ∧
    ∀ j, j ≠ dateCol → j ≠ itemCol →
      ((newRow hdrs.length dateCol logDate).set itemCol value).getD j "" = "" := by
  obtain ⟨hcv, hrows⟩ := log_item_core_ok_no_match hdrs itemType itemCol
    dateCol rows valueStr logDate itemName groupName rows' prev value hno hok
  refine ⟨hrows, ?_, ?_, ?_, ?_⟩
  · rw [List.length_set, newRow_length]
  · rw [getD_set_ne _ _ _ _ _ (Ne.symm hne)]
    exact newRow_key hdrs.length dateCol logDate hdc
  · exact getD_set_self _ _ _ _ (by rw [newRow_length]; exact hic)
  · intro j hj1 hj2
    rw [getD_set_ne _ _ _ _ _ hj2]
    exact newRow_getD_ne hdrs.length dateCol j logDate hj1

/-- C6 witness: logging `"45"` on an unseen date appends the single row
`["2026-02-01", "45"]` to a table that only had a row for another day. -/
theorem c6_witness :
    [["2026-01-31", "3"], ["2026-02-01", "45"]] =
      ([["2026-01-31", "3"]] : List (List String)).map (padRow 2) ++
        [(newRow 2 0 "2026-02-01").set 1 "45"] ∧
    ((newRow 2 0 "2026-02-01").set 1 "45").length = 2 ∧
    ((newRow 2 0 "2026-02-01").set 1 "45").getD 0 "" = "2026-02-01" ∧
    ((newRow 2 0 "2026-02-01").set 1 "45").getD 1 "" = "45" ∧
    ∀ j, j ≠ 0 → j ≠ 1 →
      ((newRow 2 0 "2026-02-01").set 1 "45").getD j "" = "" :=
  c6_fresh_date_appends_one_row ["Log_Date", "Minutes"] "integer" 1 0
    [["2026-01-31", "3"]] "45" "2026-02-01" "Minutes" "study"
    [["2026-01-31", "3"], ["2026-02-01", "45"]] "N/A" "45"
    (by decide) (by decide) (by decide) (by decide) rfl

/-- C8 counterexample: the claim quantifies over every table and item,
but logging the `Log_Date` column itself (item column = date-key
column) can duplicate a date key: on a table keyed `["5"]`, logging
value `"5"` dated `"2026-01-01"` succeeds and leaves two rows whose
date keys are both `"5"`. -/
theorem c8_counterexample :
    log_item keyStore "Log_Date" "5" "2026-01-01" =
      .ok [⟨"g", ["Log_Date"], ["integer"], [["5"], ["5"]]⟩] ∧
    (([["5"]] : List (List String)).map (rowKey 0)).Nodup ∧
    ¬ (([["5"], ["5"]] : List (List String)).map (rowKey 0)).Nodup :=
  ⟨rfl, by decide, by decide⟩

/-- C8 (amended): provided the logged item is not the date-key column
itself, a successful `log_item_core` call preserves "at most one row
per date key": an existing dated row is reused and a new row appears
only for a fresh key. -/
theorem c8_row_identity_preserved (hdrs : List String) (itemType : String)
    (itemCol dateCol : Nat) (rows : List (List String))
    (valueStr logDate itemName groupName : String)
    (rows' : List (List String)) (prev value : String)
    (hne : itemCol ≠ dateCol) (hdc : dateCol < hdrs.length)
    (hnodup : (rows.map (rowKey dateCol)).Nodup)
    (hok : log_item_core hdrs itemType itemCol dateCol rows valueStr logDate
      itemName groupName = .ok (rows', prev, value)) :
    (rows'.map (rowKey dateCol)).Nodup := by
  by_cases hno : ∀ r ∈ rows, rowKey dateCol r ≠ logDate
  · obtain ⟨hcv, hrows⟩ := log_item_core_ok_no_match hdrs itemType itemCol
      dateCol rows valueStr logDate itemName groupName rows' prev value hno hok
    have hkey : rowKey dateCol
        ((newRow hdrs.length dateCol logDate).set itemCol value) = logDate := by
      show ((newRow hdrs.length dateCol logDate).set itemCol value).getD
        dateCol "" = logDate
      rw [getD_set_ne _ _ _ _ _ (Ne.symm hne)]
      exact newRow_key hdrs.length dateCol logDate hdc
    rw [hrows, List.map_append, map_rowKey_pad]
    simp only [List.map_cons, List.map_nil, hkey]
    rw [List.nodup_append]
    refine ⟨hnodup, by simp, ?_⟩
    intro a ha hb
    simp only [List.mem_singleton] at hb
    subst hb
    obtain ⟨r, hrm, hrk⟩ := List.mem_map.mp ha
    exact hno r hrm hrk
  · obtain ⟨pre, r, post, heq, hpre, hr⟩ :=
      exists_first_match dateCol logDate rows hno
    subst heq
    obtain ⟨hcv, hrows⟩ := log_item_core_ok_match hdrs itemType itemCol
      dateCol pre r post valueStr logDate itemName groupName rows' prev value
      hpre hr hok
    have hkey : rowKey dateCol ((padRow hdrs.length r).set itemCol value) =
        rowKey dateCol r := by
      show ((padRow hdrs.length r).set itemCol value).getD dateCol "" =
        rowKey dateCol r
      rw [getD_set_ne _ _ _ _ _ (Ne.symm hne)]
      exact rowKey_padRow hdrs.length dateCol r
    rw [hrows, List.map_append, map_rowKey_pad]
    simp only [List.map_cons, hkey]
    simp only [List.map_append, List.map_cons] at hnodup
    exact hnodup

/-- C8 witness: re-logging an ordinary item on an existing date keeps
the date keys duplicate-free. -/
theorem c8_witness :
    (([["2026-02-01", "45"]] : List (List String)).map (rowKey 0)).Nodup :=
  c8_row_identity_preserved ["Log_Date", "Minutes"] "integer" 1 0
    [["2026-02-01", "1"]] "45" "2026-02-01" "Minutes" "study"
    [["2026-02-01", "45"]] "1" "45"
    (by decide) (by decide) (by decide) rfl

/-- C9: the day view skips a table with no `Log_Date` column without
aborting, omits a table whose matched row has only empty cells, shows
`"N/A"` cells as data, and renders the "no data" message exactly when
no table contributes a pair. -/
theorem c9_show_day_behaviour :
    (∀ (g : Group) (rest : List Group) (logDate : String),
      "Log_Date" ∉ g.headers →
      show_day (g :: rest) logDate = show_day rest logDate) ∧
    (∀ (g : Group) (rest : List Group) (logDate : String),
      dayViewGroup logDate g = none →
      show_day (g :: rest) logDate = show_day rest logDate) ∧
    (∀ (logDate : String) (g : Group) (dc : Nat) (row : List String),
      g.headers.findIdx? (· == "Log_Date") = some dc →
      findDayRow g.headers.length dc logDate g.rows = some row →
      (g.headers.zip row).all (fun p => p.2 == "") = true →
      dayViewGroup logDate g = none) ∧
    (∀ (logDate : String) (g : Group) (dc : Nat) (row : List String)
        (h₀ : String),
      g.headers.findIdx? (· == "Log_Date") = some dc →
      findDayRow g.headers.length dc logDate g.rows = some row →
      (h₀, "N/A") ∈ g.headers.zip row →
      ∃ ps, dayViewGroup logDate g = some (g.name, ps) ∧ (h₀, "N/A") ∈ ps) ∧
    (∀ (store : List Group) (logDate : String),
      store.filterMap (dayViewGroup logDate) = [] →
      show_day store logDate = .noData logDate) := by
  have hskip : ∀ (g : Group) (rest : List Group) (logDate : String),
      dayViewGroup logDate g = none →
      show_day (g :: rest) logDate = show_day rest logDate := by
    intro g rest logDate hnone
    unfold show_day
    rw [List.filterMap_cons, hnone]
  have hempty : ∀ (logDate : String) (g : Group) (dc : Nat) (row : List String),
      g.headers.findIdx? (· == "Log_Date") = some dc →
      findDayRow g.headers.length dc logDate g.rows = some row →
      (g.headers.zip row).all (fun p => p.2 == "") = true →
      dayViewGroup logDate g = none := by
    intro logDate g dc row hdc hrow hall
    unfold dayViewGroup
    rw [hdc]
    dsimp only
    rw [hrow]
    dsimp only
    have hnil : (g.headers.zip row).filter (fun p => p.2 ≠ "") = [] := by
      apply filter_eq_nil_of_false
      intro p hp
      have := List.all_eq_true.mp hall p hp
      simp only [beq_iff_eq] at this
      simp [this]
    rw [hnil]
  refine ⟨?_, hskip, hempty, ?_, ?_⟩
  · intro g rest logDate hno
    apply hskip
    unfold dayViewGroup
    have hfi : g.headers.findIdx? (· == "Log_Date") = none := by
      apply findIdx?_of_all_false
      intro x hx
      apply beq_eq_false_iff_ne.mpr
      intro he
      exact hno (he ▸ hx)
    rw [hfi]
  · intro logDate g dc row h₀ hdc hrow hmem
    unfold dayViewGroup
    rw [hdc]
    dsimp only
    rw [hrow]
    dsimp only
    have hm : (h₀, "N/A") ∈ (g.headers.zip row).filter (fun p => p.2 ≠ "") := by
      apply List.mem_filter.mpr
      exact ⟨hmem, by simp⟩
    cases hne : (g.headers.zip row).filter (fun p => p.2 ≠ "") with
    | nil =>
      rw [hne] at hm
      cases hm
    | cons a tl =>
      refine ⟨a :: tl, rfl, ?_⟩
      rw [hne] at hm
      exact hm
  · intro store logDate hnil
    unfold show_day
    rw [hnil]

/-- C9 witness: a table with no `Log_Date` is skipped while the rest of
the view proceeds; an all-empty matched row is omitted; an `"N/A"` cell
is shown; an empty contribution list renders the no-data message. -/
theorem c9_witness :
    show_day [⟨"broken", ["Date", "X"], ["date", "integer"],
        [["2026-02-01", "1"]]⟩, ⟨"ok", ["Log_Date", "X"],
        ["date", "integer"], [["2026-02-01", "N/A"]]⟩] "2026-02-01" =
      show_day [⟨"ok", ["Log_Date", "X"], ["date", "integer"],
        [["2026-02-01", "N/A"]]⟩] "2026-02-01" ∧
    dayViewGroup "" ⟨"e", ["Log_Date", "X"], ["date", "integer"], [[]]⟩ =
      none ∧
    (∃ ps, dayViewGroup "2026-02-01" ⟨"ok", ["Log_Date", "X"],
        ["date", "integer"], [["2026-02-01", "N/A"]]⟩ = some ("ok", ps) ∧
      ("X", "N/A") ∈ ps) ∧
    show_day [⟨"broken", ["Date", "X"], ["date", "integer"],
        [["2026-02-01", "1"]]⟩] "2026-02-01" = .noData "2026-02-01" := by
  refine ⟨?_, ?_, ?_, ?_⟩
  · exact c9_show_day_behaviour.1
      ⟨"broken", ["Date", "X"], ["date", "integer"], [["2026-02-01", "1"]]⟩
      [⟨"ok", ["Log_Date", "X"], ["date", "integer"], [["2026-02-01", "N/A"]]⟩]
      "2026-02-01" (by decide)
  · exact c9_show_day_behaviour.2.2.1 ""
      ⟨"e", ["Log_Date", "X"], ["date", "integer"], [[]]⟩ 0 ["", ""]
      rfl rfl (by decide)
  · exact c9_show_day_behaviour.2.2.2.1 "2026-02-01"
      ⟨"ok", ["Log_Date", "X"], ["date", "integer"], [["2026-02-01", "N/A"]]⟩
      0 ["2026-02-01", "N/A"] "X" rfl rfl (by decide)
  · exact c9_show_day_behaviour.2.2.2.2
      [⟨"broken", ["Date", "X"], ["date", "integer"], [["2026-02-01", "1"]]⟩]
      "2026-02-01" rfl

/-- C10 counterexample: the claim says every data row shorter than the
headers is written back right-padded, but the scan stops at the matched
row, so the short row `["x"]` sitting after the matched date row is
written back unchanged — not as `padRow 2 ["x"] = ["x", ""]`. -/
theorem c10_counterexample :
    log_item shortRowStore "X" "5" "2026-02-01" =
      .ok [⟨"g", ["Log_Date", "X"], ["date", "integer"],
        [["2026-02-01", "5"], ["x"]]⟩] ∧
    (["x"] : List String) ≠ padRow 2 ["x"] :=
  ⟨rfl, by decide⟩

/-- C10 (amended): a successful `log_item` call rewrites only the
owning group, replacing only its rows; the headers, types and name are
kept, every other group is untouched, and within the rows only the
target row's item cell changes — rows scanned before the match are
right-padded, rows after the matched row are written back unchanged
(even when short), and for a fresh date all rows are padded and exactly
one new row is appended. -/
theorem c10_frame_effect (store : List Group)
    (itemName valueStr logDate : String) (store' : List Group)
    (hok : log_item store itemName valueStr logDate = .ok store') :
    ∃ m rows' value prev,
      find_item_location store itemName = .ok m ∧
      store.get? m.gIdx = some m.group ∧
      store' = store.set m.gIdx { m.group with rows := rows' } ∧
      log_item_core m.group.headers (m.group.types.getD m.itemCol "")
        m.itemCol m.dateCol m.group.rows valueStr logDate itemName
        m.group.name = .ok (rows', prev, value) ∧
      ((∃ pre r post, m.group.rows = pre ++ r :: post ∧
          (∀ r' ∈ pre, rowKey m.dateCol r' ≠ logDate) ∧
          rowKey m.dateCol r = logDate ∧
          rows' = pre.map (padRow m.group.headers.length) ++
            (padRow m.group.headers.length r).set m.itemCol value :: post) ∨
        ((∀ r ∈ m.group.rows, rowKey m.dateCol r ≠ logDate) ∧
          rows' = m.group.rows.map (padRow m.group.headers.length) ++
            [(newRow m.group.headers.length m.dateCol logDate).set
              m.itemCol value])) := by
  unfold log_item at hok
  cases hf : find_item_location store itemName with
  | error e =>
    rw [hf] at hok
    cases hok
  | ok m =>
    rw [hf] at hok
    dsimp only at hok
    cases hc : log_item_core m.group.headers (m.group.types.getD m.itemCol "")
        m.itemCol m.dateCol m.group.rows valueStr logDate itemName
        m.group.name with
    | error e =>
      rw [hc] at hok
      cases hok
    | ok t =>
      obtain ⟨rows', prev, value⟩ := t
      rw [hc] at hok
      dsimp only at hok
      injection hok with hok'
      refine ⟨m, rows', value, prev, rfl,
        find_item_location_get? store itemName m hf, hok'.symm, ?_, ?_⟩
      · exact hc
      by_cases hno : ∀ r ∈ m.group.rows, rowKey m.dateCol r ≠ logDate
      · right
        refine ⟨hno, ?_⟩
        exact (log_item_core_ok_no_match m.group.headers
          (m.group.types.getD m.itemCol "") m.itemCol m.dateCol m.group.rows
          valueStr logDate itemName m.group.name rows' prev value hno hc).2
      · left
        obtain ⟨pre, r, post, heq, hpre, hr⟩ :=
          exists_first_match m.dateCol logDate m.group.rows hno
        rw [heq] at hc
        exact ⟨pre, r, post, heq, hpre, hr,
          (log_item_core_ok_match m.group.headers
            (m.group.types.getD m.itemCol "") m.itemCol m.dateCol pre r post
            valueStr logDate itemName m.group.name rows' prev value
            hpre hr hc).2⟩

/-- C10 witness: the frame characterization instantiated on the store
with a short trailing row. -/
theorem c10_witness :
    ∃ m rows' value prev,
      find_item_location shortRowStore "X" = .ok m ∧
      shortRowStore.get? m.gIdx = some m.group ∧
      [⟨"g", ["Log_Date", "X"], ["date", "integer"],
        [["2026-02-01", "5"], ["x"]]⟩] =
        shortRowStore.set m.gIdx { m.group with rows := rows' } ∧
      log_item_core m.group.headers (m.group.types.getD m.itemCol "")
        m.itemCol m.dateCol m.group.rows "5" "2026-02-01" "X"
        m.group.name = .ok (rows', prev, value) ∧
      ((∃ pre r post, m.group.rows = pre ++ r :: post ∧
          (∀ r' ∈ pre, rowKey m.dateCol r' ≠ "2026-02-01") ∧
          rowKey m.dateCol r = "2026-02-01" ∧
          rows' = pre.map (padRow m.group.headers.length) ++
            (padRow m.group.headers.length r).set m.itemCol value :: post) ∨
        ((∀ r ∈ m.group.rows, rowKey m.dateCol r ≠ "2026-02-01") ∧
          rows' = m.group.rows.map (padRow m.group.headers.length) ++
            [(newRow m.group.headers.length m.dateCol "2026-02-01").set
              m.itemCol value])) :=
  c10_frame_effect shortRowStore "X" "5" "2026-02-01"
    [⟨"g", ["Log_Date", "X"], ["date", "integer"],
      [["2026-02-01", "5"], ["x"]]⟩] rfl

/-- C1: starting from a table with no row for the date, logging an
integer item twice on that date stores the canonical decimal string of
the second value (SET overwrites), while logging a duration item twice
stores the formatted sum of the two durations' seconds (ADD
accumulates). -/
theorem c1_integer_sets_duration_adds :
    (∀ (hdrs : List String) (itemCol dateCol : Nat)
        (rows : List (List String)) (v1 v2 d itemName groupName : String)
        (n1 n2 : Int) (rows₁ : List (List String)) (p1 val1 : String)
        (rows₂ : List (List String)) (p2 val2 : String),
      itemCol < hdrs.length → dateCol < hdrs.length → itemCol ≠ dateCol →
      (∀ r ∈ rows, rowKey dateCol r ≠ d) →
      is_na_input v1 = false → is_na_input v2 = false →
      validate_integer v1 = .ok n1 → validate_integer v2 = .ok n2 →
      log_item_core hdrs "integer" itemCol dateCol rows v1 d itemName
        groupName = .ok (rows₁, p1, val1) →
      log_item_core hdrs "integer" itemCol dateCol rows₁ v2 d itemName
        groupName = .ok (rows₂, p2, val2) →
      val2 = intToDecimalString n2 ∧
      cellAtDate dateCol itemCol d rows₂ = some (intToDecimalString n2)) ∧
    (∀ (hdrs : List String) (itemCol dateCol : Nat)
        (rows : List (List String)) (v1 v2 d itemName groupName : String)
        (s1 s2 : Int) (rows₁ : List (List String)) (p1 val1 : String)
        (rows₂ : List (List String)) (p2 val2 : String),
      itemCol < hdrs.length → dateCol < hdrs.length → itemCol ≠ dateCol →
      (∀ r ∈ rows, rowKey dateCol r ≠ d) →
      is_na_input v1 = false → is_na_input v2 = false →
      parse_duration_to_seconds v1 = .ok s1 →
      parse_duration_to_seconds v2 = .ok s2 →
      log_item_core hdrs "duration" itemCol dateCol rows v1 d itemName
        groupName = .ok (rows₁, p1, val1) →
      log_item_core hdrs "duration" itemCol dateCol rows₁ v2 d itemName
        groupName = .ok (rows₂, p2, val2) →
      val2 = durationString (s1 + s2).toNat ∧
      format_seconds_as_duration (s1 + s2) = .ok val2 ∧
      cellAtDate dateCol itemCol d rows₂ = some val2) := by
  constructor
  · intro hdrs itemCol dateCol rows v1 v2 d itemName groupName n1 n2 rows₁
      p1 val1 rows₂ p2 val2 hic hdc hne hno hna1 hna2 hv1 hv2 hok1 hok2
    obtain ⟨hcv1, hrows1⟩ := log_item_core_ok_no_match hdrs "integer" itemCol
      dateCol rows v1 d itemName groupName rows₁ p1 val1 hno hok1
    subst hrows1
    set q1 := (newRow hdrs.length dateCol d).set itemCol val1 with hq1
    have hq1len : q1.length = hdrs.length := by
      rw [hq1, List.length_set, newRow_length]
    have hq1key : rowKey dateCol q1 = d := by
      rw [hq1]
      show ((newRow hdrs.length dateCol d).set itemCol val1).getD dateCol "" = d
      rw [getD_set_ne _ _ _ _ _ (Ne.symm hne)]
      exact newRow_key hdrs.length dateCol d hdc
    have hpre : ∀ r' ∈ rows.map (padRow hdrs.length),
        rowKey dateCol r' ≠ d := by
      intro r' hr'
      obtain ⟨r, hrm, rfl⟩ := List.mem_map.mp hr'
      rw [rowKey_padRow]
      exact hno r hrm
    obtain ⟨hcv2, hrows2⟩ := log_item_core_ok_match hdrs "integer" itemCol
      dateCol (rows.map (padRow hdrs.length)) q1 [] v2 d itemName groupName
      rows₂ p2 val2 hpre hq1key hok2
    have hpad : padRow hdrs.length q1 = q1 :=
      padRow_of_le _ _ (by rw [hq1len])
    rw [hpad] at hcv2 hrows2
    rw [map_pad_pad] at hrows2
    have hcell1 : q1.getD itemCol "" = val1 := by
      rw [hq1]
      exact getD_set_self _ _ _ _ (by rw [newRow_length]; exact hic)
    rw [hcell1] at hcv2
    have hcv2' := computeValue_integer v2 val1 itemName groupName n2 hna2 hv2
    have hpair := hcv2'.symm.trans hcv2
    injection hpair with hpair'
    have hval2 : intToDecimalString n2 = val2 := congrArg Prod.fst hpair'
    refine ⟨hval2.symm, ?_⟩
    rw [hrows2]
    have hq2key : rowKey dateCol (q1.set itemCol val2) = d := by
      show (q1.set itemCol val2).getD dateCol "" = d
      rw [getD_set_ne _ _ _ _ _ (Ne.symm hne)]
      exact hq1key
    have hq2len : itemCol < (q1.set itemCol val2).length := by
      rw [List.length_set, hq1len]
      exact hic
    rw [cellAtDate_append_last dateCol itemCol d _ _ hpre hq2key hq2len,
      getD_set_self _ _ _ _ (by rw [hq1len]; exact hic), hval2]
  · intro hdrs itemCol dateCol rows v1 v2 d itemName groupName s1 s2 rows₁
      p1 val1 rows₂ p2 val2 hic hdc hne hno hna1 hna2 hp1 hp2 hok1 hok2
    have hs1 := parse_nonneg v1 s1 hp1
    have hs2 := parse_nonneg v2 s2 hp2
    obtain ⟨hcv1, hrows1⟩ := log_item_core_ok_no_match hdrs "duration" itemCol
      dateCol rows v1 d itemName groupName rows₁ p1 val1 hno hok1
    have hcell0 : (newRow hdrs.length dateCol d).getD itemCol "" = "" :=
      newRow_getD_ne hdrs.length dateCol itemCol d hne
    rw [hcell0] at hcv1
    have hcv1' := computeValue_duration v1 "" itemName groupName s1 hna1 hp1
    rw [existingSecondsOf_empty, zero_add] at hcv1'
    have hpair1 := hcv1'.symm.trans hcv1
    injection hpair1 with hpair1'
    have hval1 : durationString s1.toNat = val1 := congrArg Prod.fst hpair1'
    subst hrows1
    set q1 := (newRow hdrs.length dateCol d).set itemCol val1 with hq1
    have hq1len : q1.length = hdrs.length := by
      rw [hq1, List.length_set, newRow_length]
    have hq1key : rowKey dateCol q1 = d := by
      rw [hq1]
      show ((newRow hdrs.length dateCol d).set itemCol val1).getD dateCol "" = d
      rw [getD_set_ne _ _ _ _ _ (Ne.symm hne)]
      exact newRow_key hdrs.length dateCol d hdc
    have hpre : ∀ r' ∈ rows.map (padRow hdrs.length),
        rowKey dateCol r' ≠ d := by
      intro r' hr'
      obtain ⟨r, hrm, rfl⟩ := List.mem_map.mp hr'
      rw [rowKey_padRow]
      exact hno r hrm
    obtain ⟨hcv2, hrows2⟩ := log_item_core_ok_match hdrs "duration" itemCol
      dateCol (rows.map (padRow hdrs.length)) q1 [] v2 d itemName groupName
      rows₂ p2 val2 hpre hq1key hok2
    have hpad : padRow hdrs.length q1 = q1 :=
      padRow_of_le _ _ (by rw [hq1len])
    rw [hpad] at hcv2 hrows2
    rw [map_pad_pad] at hrows2
    have hcell1 : q1.getD itemCol "" = val1 := by
      rw [hq1]
      exact getD_set_self _ _ _ _ (by rw [newRow_length]; exact hic)
    rw [hcell1, ← hval1] at hcv2
    have hcv2' := computeValue_duration v2 (durationString s1.toNat) itemName
      groupName s2 hna2 hp2
    rw [existingSecondsOf_durationString, Int.toNat_of_nonneg hs1] at hcv2'
    have hpair2 := hcv2'.symm.trans hcv2
    injection hpair2 with hpair2'
    have hval2 : durationString (s1 + s2).toNat = val2 :=
      congrArg Prod.fst hpair2'
    refine ⟨hval2.symm, ?_, ?_⟩
    · rw [format_eq_durationString (s1 + s2) (by omega), hval2]
    · rw [hrows2]
      have hq2key : rowKey dateCol (q1.set itemCol val2) = d := by
        show (q1.set itemCol val2).getD dateCol "" = d
        rw [getD_set_ne _ _ _ _ _ (Ne.symm hne)]
        exact hq1key
      have hq2len : itemCol < (q1.set itemCol val2).length := by
        rw [List.length_set, hq1len]
        exact hic
      rw [cellAtDate_append_last dateCol itemCol d _ _ hpre hq2key hq2len,
        getD_set_self _ _ _ _ (by rw [hq1len]; exact hic)]

/-- C1 witness: the spec's scenario — `"45"` then `"60"` on the same
date stores `"60"`; `"30:00"` then `"15:00"` stores `"00:45:00"`. -/
theorem c1_witness :
    ("60" = intToDecimalString 60 ∧
      cellAtDate 0 1 "2026-02-01"
        [["2026-02-01", "60", ""]] = some (intToDecimalString 60)) ∧
    ("00:45:00" = durationString ((1800 : Int) + 900).toNat ∧
      format_seconds_as_duration ((1800 : Int) + 900) = .ok "00:45:00" ∧
      cellAtDate 0 2 "2026-02-01"
        [["2026-02-01", "", "00:45:00"]] = some "00:45:00") :=
  ⟨c1_integer_sets_duration_adds.1 ["Log_Date", "Minutes", "Focus_Time"]
      1 0 [] "45" "60" "2026-02-01" "Minutes" "study" 45 60
      [["2026-02-01", "45", ""]] "N/A" "45"
      [["2026-02-01", "60", ""]] "45" "60"
      (by decide) (by decide) (by decide) (by decide) rfl rfl rfl rfl rfl rfl,
    c1_integer_sets_duration_adds.2 ["Log_Date", "Minutes", "Focus_Time"]
      2 0 [] "30:00" "15:00" "2026-02-01" "Focus_Time" "study" 1800 900
      [["2026-02-01", "", "00:30:00"]] "00:00:00" "00:30:00"
      [["2026-02-01", "", "00:45:00"]] "00:30:00" "00:45:00"
      (by decide) (by decide) (by decide) (by decide) rfl rfl rfl rfl rfl rfl⟩

end StudyLog
